import Mathlib

/-!
Shallow embedding of the data-normalization core of the RC-execution
dashboard: the CSV parser of src/utils/dataParser.ts and the helper
functions (findCol, getVal, smartCompare) of src/App.tsx.

Modelling conventions:
* JavaScript strings are modelled as `List Char`; `String` wrappers are
  used at the API boundary of each embedded function.
* JavaScript numbers produced by Number(...) on the strings this core
  handles are modelled as exact rationals extended with signed infinity
  (`JSNum`).  JavaScript doubles round decimal literals to 53 bits of
  precision; the exact-rational model agrees with that on every value the
  claims exercise.  Numeric version segments, where the 53-bit rounding is
  observable, are modelled faithfully: a digit segment is converted to the
  nearest double (ties to even), with every overflow collapsing to one
  Infinity sentinel, exactly as Number behaves on digit strings.
* JavaScript objects built by the row constructor are modelled as
  association lists with in-place overwrite on key collision, which is
  how property assignment behaves on plain objects.
* `toLowerCase` is modelled by the ASCII case mapping `Char.toLower`.
-/

/-- JS whitespace (the regex class backslash-s and the characters removed by
String.prototype.trim): ASCII whitespace, NBSP, BOM and the Unicode space
separators, identified by code point. -/
def jsWS (c : Char) : Bool :=
  decide (c.toNat = 32 ∨ c.toNat = 9 ∨ c.toNat = 10 ∨ c.toNat = 11 ∨ c.toNat = 12 ∨
    c.toNat = 13 ∨ c.toNat = 160 ∨ c.toNat = 65279 ∨ c.toNat = 5760 ∨
    (8192 ≤ c.toNat ∧ c.toNat ≤ 8202) ∨ c.toNat = 8232 ∨ c.toNat = 8233 ∨
    c.toNat = 8239 ∨ c.toNat = 8287 ∨ c.toNat = 12288)

/-- JS String.prototype.trim on a character list: drop whitespace from both
ends. -/
def jtrim (l : List Char) : List Char :=
  ((l.dropWhile jsWS).reverse.dropWhile jsWS).reverse

/-- JS String.prototype.toLowerCase (ASCII fragment), characterwise. -/
def jlower (l : List Char) : List Char := l.map Char.toLower

/-- A JavaScript number as produced by Number(...) on the strings this core
handles: an exact rational or a signed infinity (NaN is represented by
`none` at the option level where it can arise). -/
inductive JSNum where
  | fin (q : ℚ)
  | inf (neg : Bool)
deriving DecidableEq, Repr

/-- A value stored in a parsed CSV cell (and fed to the comparator): a JS
string or a JS number. -/
inductive JSVal where
  | str (s : String)
  | num (n : JSNum)
deriving DecidableEq, Repr

/-- Decimal digit test (the regex class backslash-d, code points 48-57). -/
def jsDigit (c : Char) : Bool := decide (48 ≤ c.toNat ∧ c.toNat ≤ 57)

/-- Digit test for radix r (0-9, a-z, A-Z below r), for the 0x / 0o / 0b
integer forms accepted by Number(...). -/
def isRadixDigit (r : Nat) (c : Char) : Bool :=
  decide ((48 ≤ c.toNat ∧ c.toNat ≤ 57 ∧ c.toNat - 48 < r) ∨
    (97 ≤ c.toNat ∧ c.toNat ≤ 122 ∧ c.toNat - 87 < r) ∨
    (65 ≤ c.toNat ∧ c.toNat ≤ 90 ∧ c.toNat - 55 < r))

/-- Numeric value of one digit character in radix up to 36. -/
def radixDigitVal (c : Char) : Nat :=
  if 48 ≤ c.toNat ∧ c.toNat ≤ 57 then c.toNat - 48
  else if 97 ≤ c.toNat then c.toNat - 87
  else c.toNat - 55

/-- Value of a digit string in radix r (most significant digit first). -/
def digitsVal (r : Nat) (l : List Char) : Nat :=
  l.foldl (fun n c => n * r + radixDigitVal c) 0

/-- Exponent part of a StrDecimalLiteral, after the e or E: an optionally
signed nonempty digit string, which must consume the whole remainder. -/
def parseExpPart (l : List Char) : Option Int :=
  match l with
  | '+' :: r => if r ≠ [] ∧ r.all jsDigit then some (digitsVal 10 r) else none
  | '-' :: r => if r ≠ [] ∧ r.all jsDigit then some (-(digitsVal 10 r : Int)) else none
  | r => if r ≠ [] ∧ r.all jsDigit then some (digitsVal 10 r) else none

/-- Mantissa of a StrUnsignedDecimalLiteral: integer digits, then optionally
a dot and fraction digits; at least one digit overall.  Returns the digit
value of the concatenated digits, the number of fraction digits, and the
unconsumed remainder. -/
def parseDecMantissa (t : List Char) : Option (Nat × Nat × List Char) :=
  let ip := t.takeWhile jsDigit
  let r1 := t.dropWhile jsDigit
  match r1 with
  | '.' :: r2 =>
    let fp := r2.takeWhile jsDigit
    let r3 := r2.dropWhile jsDigit
    if ip.isEmpty ∧ fp.isEmpty then none
    else some (digitsVal 10 (ip ++ fp), fp.length, r3)
  | _ => if ip.isEmpty then none else some (digitsVal 10 ip, 0, r1)

/-- Exact rational value of a decimal literal: sign, digit value m, number
of fraction digits, exponent.  The value is m times ten to the power of
(exponent minus fraction length). -/
def decNumVal (neg : Bool) (m : Nat) (fracLen : Nat) (e : Int) : ℚ :=
  let scale : Int := e - fracLen
  let mag : ℚ :=
    if 0 ≤ scale then mkRat (m * 10 ^ scale.toNat) 1 else mkRat m (10 ^ (-scale).toNat)
  if neg then -mag else mag

/-- StrDecimalLiteral: optional sign, then Infinity or a decimal mantissa
with optional exponent; the whole input must be consumed, otherwise the
result is NaN (none). -/
def parseStrDecimal (t : List Char) : Option JSNum :=
  let signAndRest : Bool × List Char :=
    match t with
    | '+' :: r => (false, r)
    | '-' :: r => (true, r)
    | _ => (false, t)
  let neg := signAndRest.1
  let t1 := signAndRest.2
  if t1 = "Infinity".data then some (.inf neg)
  else
    match parseDecMantissa t1 with
    | none => none
    | some (m, fl, rest) =>
      match rest with
      | [] => some (.fin (decNumVal neg m fl 0))
      | c :: r4 =>
        if c = 'e' ∨ c = 'E' then
          match parseExpPart r4 with
          | some e => some (.fin (decNumVal neg m fl e))
          | none => none
        else none

/-- JS Number(...) applied to a string (ECMAScript StringNumericLiteral):
surrounding whitespace is ignored, the empty string is 0, 0x / 0o / 0B
prefixes introduce unsigned non-decimal integers, and everything else is an
optionally signed decimal literal or Infinity.  NaN is `none`. -/
def jsStrToNumL (l : List Char) : Option JSNum :=
  match jtrim l with
  | [] => some (.fin 0)
  | '0' :: c :: rest =>
    if c = 'x' ∨ c = 'X' then
      if rest ≠ [] ∧ rest.all (isRadixDigit 16) then some (.fin (mkRat (digitsVal 16 rest) 1))
      else none
    else if c = 'o' ∨ c = 'O' then
      if rest ≠ [] ∧ rest.all (isRadixDigit 8) then some (.fin (mkRat (digitsVal 8 rest) 1))
      else none
    else if c = 'b' ∨ c = 'B' then
      if rest ≠ [] ∧ rest.all (isRadixDigit 2) then some (.fin (mkRat (digitsVal 2 rest) 1))
      else none
    else parseStrDecimal ('0' :: c :: rest)
  | t => parseStrDecimal t

/-- String-level wrapper for Number(...) on strings. -/
def jsStrToNum (s : String) : Option JSNum := jsStrToNumL s.data

/-- Decimal expansion of the fractional part num/den, most significant digit
first, fuel-bounded.  Every number reachable from the parser has a
denominator dividing a power of ten, for which the expansion terminates by
reaching zero well inside the fuel bound. -/
def fracDigitChars : Nat → Nat → Nat → List Char
  | _, _, 0 => []
  | num, den, fuel + 1 =>
    if num = 0 then []
    else Char.ofNat (48 + (num * 10) / den) :: fracDigitChars ((num * 10) % den) den fuel

/-- JS ToString on a number, for the values reachable in this development:
signed Infinity, integers, and finite decimal fractions.  The exponent
notations JS uses for very large or very small magnitudes are not modelled
(no claim evaluates them). -/
def jsNumToString : JSNum → String
  | .inf true => "-Infinity"
  | .inf false => "Infinity"
  | .fin q =>
    let sign : String := if q < 0 then "-" else ""
    let aq : ℚ := if q < 0 then -q else q
    let ipart := aq.num.toNat / aq.den
    let fnum := aq.num.toNat % aq.den
    if fnum = 0 then sign ++ ⟨Nat.toDigits 10 ipart⟩
    else sign ++ ⟨Nat.toDigits 10 ipart⟩ ++ "." ++ ⟨fracDigitChars fnum aq.den 64⟩

/-- JS truthiness of the values this core passes around: the empty string
and the number 0 are falsy, everything else is truthy. -/
def jsTruthy : JSVal → Bool
  | .str s => !s.isEmpty
  | .num n => decide (n ≠ .fin 0)

/-- JS ToString on a cell value. -/
def jsValToString : JSVal → String
  | .str s => s
  | .num n => jsNumToString n

/-- The expression String(a or-else empty-string) used by smartCompare: a
falsy argument is replaced by the empty string before stringification. -/
def jsStringOrEmpty (v : JSVal) : String :=
  if jsTruthy v then jsValToString v else ""

/-- The separator class of the prefix-cleanup regex in smartCompare:
whitespace, colon, dot, dash. -/
def sepChar (c : Char) : Bool :=
  jsWS c || decide (c.toNat = 58 ∨ c.toNat = 46 ∨ c.toNat = 45)

/-- The alternatives of the prefix alternation (rc|build|v|ver|version), in
the order the regex engine tries them. -/
def versionPrefixes : List (List Char) :=
  [['r', 'c'], ['b', 'u', 'i', 'l', 'd'], ['v'],
   ['v', 'e', 'r'], ['v', 'e', 'r', 's', 'i', 'o', 'n']]

/-- The clean step of smartCompare: one leading case-insensitive prefix from
the alternation, plus the separators immediately after it, is removed (the
first alternative that matches wins, as in regex alternation), then the
result is trimmed. -/
def clean (l : List Char) : List Char :=
  match versionPrefixes.find? (fun p => p.isPrefixOf (jlower l)) with
  | some p => jtrim ((l.drop p.length).dropWhile sepChar)
  | none => jtrim l

/-- Character class of the isVersion test: digits and dots. -/
def versionChar (c : Char) : Bool :=
  jsDigit c || decide (c.toNat = 46)

/-- isVersion in smartCompare: one or more characters, all digits or dots. -/
def isVersion (l : List Char) : Bool :=
  !l.isEmpty && l.all versionChar

/-- Number of halvings needed to bring n below 2^53, fuel-bounded; fuel
1024 suffices for every n below 2^1024. -/
def shiftFor (n : Nat) : Nat → Nat
  | 0 => 0
  | fuel + 1 => if n < 2 ^ 53 then 0 else shiftFor (n / 2) fuel + 1

/-- Rounding of an exact natural to the nearest IEEE double (ties to even),
as JS Number performs on a digit string: values below 2^53 are exact;
above, the significand is cut to 53 bits and rounded; everything at or
beyond the double range becomes the sentinel 2^1024, standing for the one
value Infinity that all such segments turn into, so equality of model
values coincides with strict equality of the JS values. -/
def roundNat53 (n : Nat) : Nat :=
  if n < 2 ^ 53 then n
  else if 2 ^ 1024 ≤ n then 2 ^ 1024
  else
    let k := shiftFor n 1024
    let q := n / 2 ^ k
    let r := n % 2 ^ k
    let q1 := if 2 ^ k < 2 * r ∨ (2 * r = 2 ^ k ∧ q % 2 = 1) then q + 1 else q
    q1 * 2 ^ k

/-- Number(...) on one version segment (a possibly empty digit string): the
digits read in base ten, the empty segment reading as 0, the result rounded
to the nearest double the way JS Number is. -/
def segToNat (l : List Char) : Nat :=
  roundNat53 (l.foldl (fun n c => n * 10 + (c.toNat - 48)) 0)

/-- The trailing-zero-stripping loop of smartCompare: remove zero-valued
segments from the end of the list. -/
def stripTrailingZeros (l : List Nat) : List Nat :=
  (l.reverse.dropWhile (fun n => decide (n = 0))).reverse

/-- The numeric version-segment stage of smartCompare: split both cleaned
strings on dots, convert segments, strip trailing zeros, then require equal
length and elementwise equality. -/
def segStage (ca cb : List Char) : Bool :=
  let a1 := stripTrailingZeros ((ca.splitOn '.').map segToNat)
  let b1 := stripTrailingZeros ((cb.splitOn '.').map segToNat)
  if a1.length ≠ b1.length then false
  else (a1.zip b1).all fun p => decide (p.1 = p.2)

/-- The strategy chain of smartCompare after stringification and trimming:
empty guard, exact match, case-insensitive match, prefix-cleaned match
(exact then case-insensitive), numeric version-segment match, else false. -/
def smartCore (sa sb : List Char) : Bool :=
  if sa = [] ∨ sb = [] then false
  else if sa = sb then true
  else if jlower sa = jlower sb then true
  else if clean sa = clean sb then true
  else if jlower (clean sa) = jlower (clean sb) then true
  else if isVersion (clean sa) = true ∧ isVersion (clean sb) = true then
    segStage (clean sa) (clean sb)
  else false

/-- smartCompare on arbitrary cell values, as in the source (arguments are
typed any there): stringify with the falsy guard, trim, then run the
strategy chain. -/
def smartCompareJS (a b : JSVal) : Bool :=
  smartCore (jtrim (jsStringOrEmpty a).data) (jtrim (jsStringOrEmpty b).data)

/-- smartCompare restricted to string arguments. -/
def smartCompare (a b : String) : Bool :=
  smartCompareJS (.str a) (.str b)

/-- Trailing-zero-stripped segment list of a cleaned version string, as the
specification describes stage five. -/
def verSegs (l : List Char) : List Nat :=
  stripTrailingZeros ((l.splitOn '.').map segToNat)

/-- Segment-list comparison as the specification describes it: false when
the lengths differ, elementwise equality otherwise. -/
def versionSegEq (a1 b1 : List Nat) : Bool :=
  if a1.length ≠ b1.length then false
  else (a1.zip b1).all fun p => decide (p.1 = p.2)

/-- Exact unbounded integer value of one segment, as the original claim
words the conversion (used to state the counterexample against it). -/
def exactSegVal (l : List Char) : Nat :=
  l.foldl (fun n c => n * 10 + (c.toNat - 48)) 0

/-- Trailing-zero-stripped exact segment list of a cleaned version string:
the computation the original claim describes. -/
def exactSegs (l : List Char) : List Nat :=
  stripTrailingZeros ((l.splitOn '.').map exactSegVal)

/-- Field splitting of one CSV line: a double quote flips the in-quotes
state and is consumed; a comma outside quotes ends the current field, which
is trimmed and pushed; any other character is appended to the current
field; at end of line the final field is trimmed and pushed. -/
def splitLineAux : List Char → List Char → Bool → List String
  | [], cur, _ => [⟨jtrim cur⟩]
  | c :: rest, cur, inQ =>
    if c = '"' then splitLineAux rest cur (!inQ)
    else if c = ',' ∧ inQ = false then ⟨jtrim cur⟩ :: splitLineAux rest [] inQ
    else splitLineAux rest (cur ++ [c]) inQ

/-- splitLine of the source: scan the line from an empty field buffer,
outside quotes. -/
def splitLine (l : List Char) : List String := splitLineAux l [] false

/-- Remove one trailing carriage return, if present. -/
def stripCR (l : List Char) : List Char :=
  if l.getLast? = some '\r' then l.dropLast else l

/-- Apply f to every element except the last. -/
def mapExceptLast (f : List Char → List Char) : List (List Char) → List (List Char)
  | [] => []
  | [x] => [x]
  | x :: y :: xs => f x :: mapExceptLast f (y :: xs)

/-- Splitting on the line-ending regex (optional CR then LF): split on LF,
then strip the CR left at the end of every piece that was followed by an
LF. -/
def splitLines (l : List Char) : List (List Char) :=
  mapExceptLast stripCR (l.splitOn '\n')

/-- The line list parseCSV works on: raw lines with the blank and
whitespace-only ones discarded. -/
def csvLines (text : String) : List (List Char) :=
  (splitLines text.data).filter (fun l => !(jtrim l).isEmpty)

/-- The residual quote cleanup applied to each paired value: one leading
and one trailing double quote are removed (the g-flagged regex anchored at
start and end). -/
def stripEdgeQuotes (l : List Char) : List Char :=
  let l1 := match l with
    | '"' :: r => r
    | _ => l
  if l1.getLast? = some '"' then l1.dropLast else l1

/-- The value a paired field contributes after quote cleanup. -/
def cellVal (s : String) : String := ⟨stripEdgeQuotes s.data⟩

/-- Cell typing of parseCSV: a non-empty value that Number(...) accepts is
stored as that number, anything else is stored as the string. -/
def coerceCell (s : String) : JSVal :=
  match jsStrToNum (cellVal s) with
  | some n => if cellVal s = "" then .str (cellVal s) else .num n
  | none => .str (cellVal s)

/-- Property assignment on a plain JS object modelled on an association
list: overwrite in place if the key exists, append otherwise. -/
def insertJS : List (String × JSVal) → String → JSVal → List (String × JSVal)
  | [], k, v => [(k, v)]
  | (k0, v0) :: rest, k, v =>
    if k0 = k then (k, v) :: rest else (k0, v0) :: insertJS rest k v

/-- The forEach loop of the row constructor: walk the headers with the
value list, assigning each header the positionally matching value (or the
empty string past the end), coerced. -/
def buildRowAux : List String → List String → List (String × JSVal) → List (String × JSVal)
  | [], _, row => row
  | h :: hs, vs, row => buildRowAux hs (vs.drop 1) (insertJS row h (coerceCell (vs.headD "")))

/-- One data row of parseCSV from the header list and the split values. -/
def buildRow (hs vs : List String) : List (String × JSVal) :=
  buildRowAux hs vs []

/-- The result shape of parseCSV. -/
structure ParsedTable where
  headers : List String
  rows : List (List (String × JSVal))
deriving DecidableEq, Repr

/-- parseCSV of the source: split into lines, discard blank ones, take the
first remaining line as header line, build one row per remaining line. -/
def parseCSV (text : String) : ParsedTable :=
  match csvLines text with
  | [] => ⟨[], []⟩
  | l0 :: rest =>
    ⟨splitLine l0, rest.map fun line => buildRow (splitLine l0) (splitLine line)⟩

/-- The alias test of findCol: the lowercased alias equals the lowercased
then trimmed header. -/
def colMatch (aliases : List String) (h : String) : Bool :=
  aliases.any fun a => decide (jlower a.data = jtrim (jlower h.data))

/-- findCol of the source: undefined on an empty header list, otherwise the
first header some alias matches. -/
def findCol (headers aliases : List String) : Option String :=
  if headers.isEmpty then none
  else headers.find? (colMatch aliases)

/-- Number(...) on a cell value: a number is itself, a string goes through
the string-to-number conversion. -/
def jsToNum : JSVal → Option JSNum
  | .str s => jsStrToNum s
  | .num n => some n

/-- getVal of the source: 0 for a falsy header (undefined or empty string)
or a missing entry, otherwise Number(cell) or-else 0. -/
def getVal (row : List (String × JSVal)) (header : Option String) : JSNum :=
  match header with
  | none => .fin 0
  | some h =>
    if h = "" then .fin 0
    else
      match List.lookup h row with
      | none => .fin 0
      | some cell =>
        match jsToNum cell with
        | some n => if n = .fin 0 then .fin 0 else n
        | none => .fin 0

/-- getValByAliases of the source: resolve the column, then extract. -/
def getValByAliases (row : List (String × JSVal)) (headers aliases : List String) : JSNum :=
  getVal row (findCol headers aliases)

/-! Character-level facts about the ASCII case mapping and the character
classes used by the comparator. -/

theorem toLower_def (c : Char) :
    Char.toLower c = if 65 ≤ c.toNat ∧ c.toNat ≤ 90 then Char.ofNat (c.toNat + 32) else c := rfl

theorem toNat_ofNat_valid (n : Nat) (h : n.isValidChar) : (Char.ofNat n).toNat = n := by
  simp only [Char.ofNat, dif_pos h]
  rfl

theorem char_eq_of_toNat (c d : Char) (h : c.toNat = d.toNat) : c = d := by
  have hc := Char.ofNat_toNat c
  rw [h] at hc
  rw [← hc, Char.ofNat_toNat]

theorem toLower_toNat (c : Char) :
    (Char.toLower c).toNat = if 65 ≤ c.toNat ∧ c.toNat ≤ 90 then c.toNat + 32 else c.toNat := by
  rw [toLower_def]
  by_cases h : 65 ≤ c.toNat ∧ c.toNat ≤ 90
  · rw [if_pos h, if_pos h, toNat_ofNat_valid _ (by left; omega)]
  · rw [if_neg h, if_neg h]

theorem toLower_toLower (c : Char) : Char.toLower (Char.toLower c) = Char.toLower c := by
  apply char_eq_of_toNat
  have h1 := toLower_toNat c
  by_cases h : 65 ≤ c.toNat ∧ c.toNat ≤ 90
  · rw [if_pos h] at h1
    rw [toLower_toNat (Char.toLower c), h1, if_neg (by omega)]
  · rw [if_neg h] at h1
    rw [toLower_toNat (Char.toLower c), h1, if_neg h]

theorem jsWS_toLower (c : Char) : jsWS (Char.toLower c) = jsWS c := by
  unfold jsWS
  rw [toLower_toNat]
  by_cases h : 65 ≤ c.toNat ∧ c.toNat ≤ 90
  · rw [if_pos h]
    apply decide_eq_decide.mpr
    omega
  · rw [if_neg h]

theorem sepChar_toLower (c : Char) : sepChar (Char.toLower c) = sepChar c := by
  unfold sepChar
  rw [jsWS_toLower, toLower_toNat]
  by_cases h : 65 ≤ c.toNat ∧ c.toNat ≤ 90
  · rw [if_pos h]
    congr 1
    apply decide_eq_decide.mpr
    omega
  · rw [if_neg h]

theorem versionChar_toLower_fix (c : Char) (h : versionChar c = true) : Char.toLower c = c := by
  apply char_eq_of_toNat
  rw [toLower_toNat]
  unfold versionChar jsDigit at h
  rw [Bool.or_eq_true, decide_eq_true_iff, decide_eq_true_iff] at h
  rw [if_neg (by omega)]

/-! Facts about jlower, jtrim and clean: the ASCII lowering is idempotent
and commutes with trimming and prefix cleanup. -/

theorem jlower_idem (l : List Char) : jlower (jlower l) = jlower l := by
  unfold jlower
  rw [List.map_map]
  apply List.map_congr_left
  intro c _
  exact toLower_toLower c

theorem jlower_reverse (l : List Char) : jlower l.reverse = (jlower l).reverse := by
  unfold jlower
  exact List.map_reverse _ _

theorem jlower_drop (n : Nat) (l : List Char) : jlower (l.drop n) = (jlower l).drop n := by
  unfold jlower
  exact List.map_drop _ _ _

theorem jlower_dropWhile_jsWS (l : List Char) :
    (jlower l).dropWhile jsWS = jlower (l.dropWhile jsWS) := by
  unfold jlower
  rw [List.dropWhile_map]
  have h : (jsWS ∘ Char.toLower) = jsWS := funext jsWS_toLower
  rw [h]

theorem jlower_dropWhile_sep (l : List Char) :
    (jlower l).dropWhile sepChar = jlower (l.dropWhile sepChar) := by
  unfold jlower
  rw [List.dropWhile_map]
  have h : (sepChar ∘ Char.toLower) = sepChar := funext sepChar_toLower
  rw [h]

theorem jlower_jtrim (l : List Char) : jlower (jtrim l) = jtrim (jlower l) := by
  have h2 := jlower_dropWhile_jsWS ((l.dropWhile jsWS).reverse)
  unfold jtrim
  rw [jlower_dropWhile_jsWS l, ← jlower_reverse, h2, ← jlower_reverse]

theorem jlower_clean (l : List Char) : jlower (clean l) = clean (jlower l) := by
  unfold clean
  rw [jlower_idem]
  cases hf : versionPrefixes.find? (fun p => p.isPrefixOf (jlower l)) with
  | none => exact jlower_jtrim l
  | some p =>
    rw [jlower_jtrim]
    congr 1
    rw [← jlower_drop, jlower_dropWhile_sep]

theorem jlower_fix_of_isVersion (l : List Char) (h : isVersion l = true) : jlower l = l := by
  unfold isVersion at h
  rw [Bool.and_eq_true, List.all_eq_true] at h
  unfold jlower
  conv_rhs => rw [← List.map_id l]
  apply List.map_congr_left
  intro c hc
  exact versionChar_toLower_fix c (h.2 c hc)

/-! The segment stage compared lists for equality: with the length guard in
front, the elementwise test is exactly list equality. -/

theorem versionSegEq_eq_decide (a1 b1 : List Nat) : versionSegEq a1 b1 = decide (a1 = b1) := by
  unfold versionSegEq
  induction a1 generalizing b1 with
  | nil =>
    cases b1 with
    | nil => simp
    | cons y ys => simp
  | cons x xs ih =>
    cases b1 with
    | nil => simp
    | cons y ys =>
      have hih := ih ys
      by_cases hl : xs.length = ys.length
      · rw [if_neg (by simp only [List.length_cons]; omega)]
        rw [if_neg (by omega)] at hih
        by_cases hxy : x = y
        · subst hxy
          simp only [List.zip_cons_cons, List.all_cons, hih]
          simp
        · have hne : ¬(x :: xs = y :: ys) := by
            intro h
            exact hxy (by injection h)
          simp [hxy, hne]
      · rw [if_pos (by simp only [List.length_cons]; omega)]
        have hne : ¬(x :: xs = y :: ys) := by
          intro h
          injection h with h1 h2
          exact hl (by rw [h2])
        simp [hne]

theorem segStage_eq (ca cb : List Char) :
    segStage ca cb = versionSegEq (verSegs ca) (verSegs cb) := rfl

theorem segStage_symm (ca cb : List Char) : segStage ca cb = segStage cb ca := by
  rw [segStage_eq, segStage_eq, versionSegEq_eq_decide, versionSegEq_eq_decide]
  exact decide_eq_decide.mpr eq_comm

theorem versionSegEq_refl (a1 : List Nat) : versionSegEq a1 a1 = true := by
  rw [versionSegEq_eq_decide]
  simp

/-! Symmetry of the strategy chain. -/

theorem smartCore_symm (sa sb : List Char) : smartCore sa sb = smartCore sb sa := by
  unfold smartCore
  by_cases h0 : sa = [] ∨ sb = []
  · have h0' : sb = [] ∨ sa = [] := Or.symm h0
    rw [if_pos h0, if_pos h0']
  · have h0' : ¬(sb = [] ∨ sa = []) := fun h => h0 (Or.symm h)
    rw [if_neg h0, if_neg h0']
    by_cases h1 : sa = sb
    · have h1' : sb = sa := h1.symm
      rw [if_pos h1, if_pos h1']
    · have h1' : ¬sb = sa := fun h => h1 h.symm
      rw [if_neg h1, if_neg h1']
      by_cases h2 : jlower sa = jlower sb
      · have h2' : jlower sb = jlower sa := h2.symm
        rw [if_pos h2, if_pos h2']
      · have h2' : ¬jlower sb = jlower sa := fun h => h2 h.symm
        rw [if_neg h2, if_neg h2']
        by_cases h3 : clean sa = clean sb
        · have h3' : clean sb = clean sa := h3.symm
          rw [if_pos h3, if_pos h3']
        · have h3' : ¬clean sb = clean sa := fun h => h3 h.symm
          rw [if_neg h3, if_neg h3']
          by_cases h4 : jlower (clean sa) = jlower (clean sb)
          · have h4' : jlower (clean sb) = jlower (clean sa) := h4.symm
            rw [if_pos h4, if_pos h4']
          · have h4' : ¬jlower (clean sb) = jlower (clean sa) := fun h => h4 h.symm
            rw [if_neg h4, if_neg h4']
            by_cases h5 : isVersion (clean sa) = true ∧ isVersion (clean sb) = true
            · have h5' : isVersion (clean sb) = true ∧ isVersion (clean sa) = true := ⟨h5.2, h5.1⟩
              rw [if_pos h5, if_pos h5']
              exact segStage_symm _ _
            · have h5' : ¬(isVersion (clean sb) = true ∧ isVersion (clean sa) = true) :=
                fun h => h5 ⟨h.2, h.1⟩
              rw [if_neg h5, if_neg h5']

/-! When both cleaned strings are version shaped, every strategy that can
return true agrees with the segment comparison, so the chain's result is
exactly the segment comparison. -/

theorem clean_nil : clean [] = [] := by decide

theorem smartCore_version (sa sb : List Char)
    (ha : isVersion (clean sa) = true) (hb : isVersion (clean sb) = true) :
    smartCore sa sb = versionSegEq (verSegs (clean sa)) (verSegs (clean sb)) := by
  have hsa : sa ≠ [] := by
    intro h
    rw [h, clean_nil] at ha
    exact absurd ha (by decide)
  have hsb : sb ≠ [] := by
    intro h
    rw [h, clean_nil] at hb
    exact absurd hb (by decide)
  have hlow : jlower (clean sa) = jlower (clean sb) → clean sa = clean sb := by
    intro h
    rw [jlower_fix_of_isVersion _ ha, jlower_fix_of_isVersion _ hb] at h
    exact h
  have h0 : ¬(sa = [] ∨ sb = []) := by rintro (h | h); exacts [hsa h, hsb h]
  unfold smartCore
  rw [if_neg h0]
  by_cases h1 : sa = sb
  · rw [if_pos h1, h1, versionSegEq_refl]
  · rw [if_neg h1]
    by_cases h2 : jlower sa = jlower sb
    · have hc : clean sa = clean sb := by
        apply hlow
        rw [jlower_clean, jlower_clean, h2]
      rw [if_pos h2, hc, versionSegEq_refl]
    · rw [if_neg h2]
      by_cases h3 : clean sa = clean sb
      · rw [if_pos h3, h3, versionSegEq_refl]
      · rw [if_neg h3]
        by_cases h4 : jlower (clean sa) = jlower (clean sb)
        · exact absurd (hlow h4) h3
        · rw [if_neg h4, if_pos ⟨ha, hb⟩]
          exact segStage_eq _ _

theorem jsStringOrEmpty_str (s : String) : jsStringOrEmpty (.str s) = s := by
  unfold jsStringOrEmpty jsTruthy jsValToString
  by_cases h : s.isEmpty
  · rw [(String.isEmpty_iff s).mp h]
    simp
  · simp [h]

theorem smartCompare_eq_core (a b : String) :
    smartCompare a b = smartCore (jtrim a.data) (jtrim b.data) := by
  unfold smartCompare smartCompareJS
  rw [jsStringOrEmpty_str, jsStringOrEmpty_str]

/-- C1 (amended): for all inputs a and b whose prefix-cleaned strings both
consist of one or more digits and dots only, smartCompare decides equality
by splitting each cleaned string on dots, converting every segment to a
number the way JS Number does (exact below 2^53, rounded to the nearest
double with ties to even above, all overflows equal as Infinity), stripping
trailing zero-valued segments, then returning false if the two lists differ
in length and otherwise the result of elementwise equality; in particular
smartCompare "RC 1.0.0" "Build 1" is true, smartCompare "v2.1" "2.1.0" is
true, and smartCompare "1.2" "1.3" is false. -/
theorem claim_C1_version_path (a b : String)
    (ha : isVersion (clean (jtrim a.data)) = true)
    (hb : isVersion (clean (jtrim b.data)) = true) :
    smartCompare a b =
      versionSegEq (verSegs (clean (jtrim a.data))) (verSegs (clean (jtrim b.data)))
    ∧ smartCompare "RC 1.0.0" "Build 1" = true
    ∧ smartCompare "v2.1" "2.1.0" = true
    ∧ smartCompare "1.2" "1.3" = false := by
  refine ⟨?_, by decide, by decide, by decide⟩
  rw [smartCompare_eq_core]
  exact smartCore_version _ _ ha hb

theorem claim_C1_version_path_witness :
    (isVersion (clean (jtrim ("RC 1.0" : String).data)) = true
      ∧ isVersion (clean (jtrim ("1.0.0" : String).data)) = true)
    ∧ smartCompare "RC 1.0" "1.0.0" =
        versionSegEq (verSegs (clean (jtrim ("RC 1.0" : String).data)))
          (verSegs (clean (jtrim ("1.0.0" : String).data))) :=
  ⟨⟨by decide, by decide⟩,
    (claim_C1_version_path "RC 1.0" "1.0.0" (by decide) (by decide)).1⟩

set_option maxRecDepth 8000 in
/-- C1 counterexample: the original claim converts every segment to an
exact integer, but JS Number rounds digit strings at 2^53; at the version
strings 9007199254740993 and 9007199254740992, which satisfy the claim's
hypotheses, the program returns true while the exact-integer segment
comparison the claim describes returns false. -/
theorem claim_C1_counterexample :
    isVersion (clean (jtrim ("9007199254740993" : String).data)) = true
    ∧ isVersion (clean (jtrim ("9007199254740992" : String).data)) = true
    ∧ smartCompare "9007199254740993" "9007199254740992" = true
    ∧ versionSegEq (exactSegs (clean (jtrim ("9007199254740993" : String).data)))
        (exactSegs (clean (jtrim ("9007199254740992" : String).data))) = false :=
  ⟨by decide, by decide, by decide, by decide⟩

/-- C2: the comparator is total (a total function of its two string inputs
in this embedding) and symmetric: smartCompare a b equals smartCompare b a
for every pair of strings, across all of the strategies including the
prefix-stripped and numeric version-segment ones. -/
theorem claim_C2_symm (a b : String) : smartCompare a b = smartCompare b a := by
  rw [smartCompare_eq_core, smartCompare_eq_core]
  exact smartCore_symm _ _

/-- C9: the alternation (rc|build|v|ver|version) tries "v" before "ver" and
"version", so on any string whose lowercase form begins with "ver" only the
single leading character is removed and no separator follows it; in
particular clean "Version 1.0" is "ersion 1.0" and
smartCompare "Version 1.0" "1.0" is false. -/
theorem claim_C9_clean_ver (s : List Char)
    (h : (jlower s).take 3 = ['v', 'e', 'r']) :
    clean s = jtrim (s.drop 1)
    ∧ clean ("Version 1.0".data) = "ersion 1.0".data
    ∧ smartCompare "Version 1.0" "1.0" = false := by
  refine ⟨?_, by decide, by decide⟩
  cases s with
  | nil => simp [jlower] at h
  | cons c1 s1 =>
    cases s1 with
    | nil => simp [jlower] at h
    | cons c2 s2 =>
      cases s2 with
      | nil => simp [jlower] at h
      | cons c3 t =>
        simp only [jlower, List.map_cons, List.take_succ_cons, List.take_zero] at h
        rw [List.cons.injEq, List.cons.injEq, List.cons.injEq] at h
        obtain ⟨h1, h2, h3, -⟩ := h
        have e1 : (['r', 'c'].isPrefixOf (jlower (c1 :: c2 :: c3 :: t))) = false := by
          simp [jlower, List.isPrefixOf_cons₂, h1]
        have e2 : (['b', 'u', 'i', 'l', 'd'].isPrefixOf (jlower (c1 :: c2 :: c3 :: t))) = false := by
          simp [jlower, List.isPrefixOf_cons₂, h1]
        have e3 : (['v'].isPrefixOf (jlower (c1 :: c2 :: c3 :: t))) = true := by
          simp [jlower, List.isPrefixOf_cons₂, h1]
        have hfind : versionPrefixes.find?
            (fun p => p.isPrefixOf (jlower (c1 :: c2 :: c3 :: t))) = some ['v'] := by
          unfold versionPrefixes
          rw [List.find?_cons_of_neg _ (by simp [e1]), List.find?_cons_of_neg _ (by simp [e2]),
            List.find?_cons_of_pos _ (by simp [e3])]
        unfold clean
        rw [hfind]
        have hsep : sepChar c2 = false := by
          rw [← sepChar_toLower, h2]
          decide
        simp only [List.length_singleton, List.drop_succ_cons, List.drop_zero,
          List.dropWhile_cons, hsep]
        simp

/-- C9 witness. -/
theorem claim_C9_clean_ver_witness :
    clean ("Very 2".data) = jtrim (("Very 2".data).drop 1) :=
  (claim_C9_clean_ver ("Very 2".data) (by decide)).1

/-- C10: a falsy non-string argument to smartCompare, in particular the
number 0 that parseCSV stores for a cell containing "0", is stringified by
the or-else guard to the empty string, so the empty guard fires and the
comparison is false, both against the string "0" and against 0 itself; by
contrast the plain JS stringification of the number 0 is the non-empty
string "0". -/
theorem claim_C10_falsy_zero :
    jsStringOrEmpty (.num (.fin 0)) = ""
    ∧ smartCompareJS (.num (.fin 0)) (.str "0") = false
    ∧ smartCompareJS (.str "0") (.num (.fin 0)) = false
    ∧ smartCompareJS (.num (.fin 0)) (.num (.fin 0)) = false
    ∧ (parseCSV "h\n0").rows = [[("h", .num (.fin 0))]]
    ∧ jsNumToString (.fin 0) = "0" := by
  exact ⟨by decide, by decide, by decide, by decide, by decide, by decide⟩

/-! Association-list facts about the row constructor. -/

theorem lookup_insertJS_self (row : List (String × JSVal)) (k : String) (v : JSVal) :
    List.lookup k (insertJS row k v) = some v := by
  induction row with
  | nil => simp [insertJS, List.lookup_cons]
  | cons p rest ih =>
    obtain ⟨k0, v0⟩ := p
    unfold insertJS
    by_cases h : k0 = k
    · rw [if_pos h]
      simp [List.lookup_cons]
    · rw [if_neg h]
      have hb : (k == k0) = false := beq_eq_false_iff_ne.mpr (fun hh => h hh.symm)
      simp [List.lookup_cons, hb, ih]

theorem lookup_insertJS_ne (row : List (String × JSVal)) (k k1 : String) (v : JSVal)
    (h : k1 ≠ k) : List.lookup k1 (insertJS row k v) = List.lookup k1 row := by
  have hb : (k1 == k) = false := beq_eq_false_iff_ne.mpr h
  induction row with
  | nil => simp [insertJS, List.lookup_cons, hb]
  | cons p rest ih =>
    obtain ⟨k0, v0⟩ := p
    unfold insertJS
    by_cases hk : k0 = k
    · rw [if_pos hk]
      have hb0 : (k1 == k0) = false := beq_eq_false_iff_ne.mpr (by rw [hk]; exact h)
      simp [List.lookup_cons, hb, hb0]
    · rw [if_neg hk]
      by_cases h10 : k1 = k0
      · subst h10
        simp [List.lookup_cons]
      · have hb0 : (k1 == k0) = false := beq_eq_false_iff_ne.mpr h10
        simp [List.lookup_cons, hb0, ih]

theorem mem_insertJS (row : List (String × JSVal)) (k : String) (v : JSVal)
    (kv : String × JSVal) (h : kv ∈ insertJS row k v) : kv ∈ row ∨ kv.1 = k := by
  induction row with
  | nil =>
    simp [insertJS] at h
    right
    rw [h]
  | cons p rest ih =>
    obtain ⟨k0, v0⟩ := p
    unfold insertJS at h
    by_cases hk : k0 = k
    · rw [if_pos hk] at h
      rcases List.mem_cons.mp h with rfl | h2
      · right; rfl
      · left; exact List.mem_cons_of_mem _ h2
    · rw [if_neg hk] at h
      rcases List.mem_cons.mp h with rfl | h2
      · left; exact List.mem_cons_self _ _
      · rcases ih h2 with h3 | h3
        · left; exact List.mem_cons_of_mem _ h3
        · right; exact h3

theorem buildRowAux_keys :
    ∀ (hs vs : List String) (row : List (String × JSVal)) (kv : String × JSVal),
      kv ∈ buildRowAux hs vs row → kv ∈ row ∨ kv.1 ∈ hs := by
  intro hs
  induction hs with
  | nil =>
    intro vs row kv h
    left
    exact h
  | cons h0 hs ih =>
    intro vs row kv h
    unfold buildRowAux at h
    rcases ih _ _ _ h with h2 | h2
    · rcases mem_insertJS _ _ _ _ h2 with h3 | h3
      · left; exact h3
      · right; rw [h3]; exact List.mem_cons_self _ _
    · right
      exact List.mem_cons_of_mem _ h2

theorem lookup_buildRowAux_of_not_mem (k : String) :
    ∀ (hs vs : List String) (row : List (String × JSVal)), k ∉ hs →
      List.lookup k (buildRowAux hs vs row) = List.lookup k row := by
  intro hs
  induction hs with
  | nil =>
    intro vs row _
    rfl
  | cons h0 hs ih =>
    intro vs row hk
    unfold buildRowAux
    rw [ih _ _ (fun hm => hk (List.mem_cons_of_mem _ hm))]
    exact lookup_insertJS_ne _ _ _ _ (fun he => hk (he ▸ List.mem_cons_self _ _))

theorem headD_eq_getD_zero (vs : List String) : vs.headD "" = vs.getD 0 "" := by
  cases vs <;> rfl

theorem getD_drop_one (vs : List String) (j : Nat) : (vs.drop 1).getD j "" = vs.getD (j + 1) "" := by
  cases vs <;> rfl

theorem lookup_buildRowAux_get :
    ∀ (hs vs : List String) (row : List (String × JSVal)) (i : Nat) (hi : i < hs.length),
      hs.Nodup → (∀ kv ∈ row, kv.1 ∉ hs) →
      List.lookup (hs.get ⟨i, hi⟩) (buildRowAux hs vs row) = some (coerceCell (vs.getD i "")) := by
  intro hs
  induction hs with
  | nil =>
    intro vs row i hi
    exact absurd hi (by simp)
  | cons h0 hs ih =>
    intro vs row i hi hnd hrow
    rw [List.nodup_cons] at hnd
    unfold buildRowAux
    cases i with
    | zero =>
      have hget : (h0 :: hs).get ⟨0, hi⟩ = h0 := rfl
      rw [hget, lookup_buildRowAux_of_not_mem _ _ _ _ hnd.1, lookup_insertJS_self,
        headD_eq_getD_zero]
    | succ j =>
      have hj : j < hs.length := Nat.lt_of_succ_lt_succ hi
      have hget : (h0 :: hs).get ⟨j + 1, hi⟩ = hs.get ⟨j, hj⟩ := rfl
      rw [hget]
      rw [ih (vs.drop 1) _ j hj hnd.2 ?_]
      · rw [getD_drop_one]
      · intro kv hkv
        rcases mem_insertJS _ _ _ _ hkv with h2 | h2
        · intro hm
          exact hrow kv h2 (List.mem_cons_of_mem _ hm)
        · rw [h2]
          exact hnd.1

theorem buildRowAux_take :
    ∀ (hs vs : List String) (row : List (String × JSVal)),
      buildRowAux hs vs row = buildRowAux hs (vs.take hs.length) row := by
  intro hs
  induction hs with
  | nil =>
    intro vs row
    rfl
  | cons h0 hs ih =>
    intro vs row
    cases vs with
    | nil => rfl
    | cons v vs' =>
      unfold buildRowAux
      simp only [List.length_cons, List.take_succ_cons, List.headD_cons, List.drop_succ_cons,
        List.drop_zero]
      exact ih vs' _

/-- C3: for every CSV text, when the blank-filtered line list is empty the
result is the empty table, and otherwise the header count is the field
count of the first remaining line and the row count is the number of
remaining data lines; blank and whitespace-only lines (including a final
trailing one) are discarded before the header line is chosen, as the
concrete conjunct illustrates with CRLF endings and a trailing blank. -/
theorem claim_C3_parse_shape (text : String) :
    (csvLines text = [] → parseCSV text = ⟨[], []⟩)
    ∧ (∀ l0 rest, csvLines text = l0 :: rest →
        (parseCSV text).headers.length = (splitLine l0).length
        ∧ (parseCSV text).rows.length = rest.length)
    ∧ csvLines "a,b\r\n1,2\n \n3,4\n" = ["a,b".data, "1,2".data, "3,4".data] := by
  refine ⟨?_, ?_, by decide⟩
  · intro h
    unfold parseCSV
    rw [h]
  · intro l0 rest h
    unfold parseCSV
    rw [h]
    exact ⟨rfl, by simp⟩

/-- C3 witness. -/
theorem claim_C3_parse_shape_witness :
    (parseCSV "a,b\n1,2\n\n").headers.length = (splitLine ("a,b".data)).length
    ∧ (parseCSV "a,b\n1,2\n\n").rows.length = (["1,2".data] : List (List Char)).length :=
  (claim_C3_parse_shape "a,b\n1,2\n\n").2.1 ("a,b".data) ["1,2".data] (by decide)

/-- C4: in field splitting a double quote flips the in-quotes state and is
consumed, a comma outside quotes ends the current field (trimmed and
pushed), any other character including a comma inside quotes is appended to
the field buffer, and the line a,"b,c",d yields exactly the fields
a, b-comma-c, d. -/
theorem claim_C4_splitLine (c : Char) (rest cur : List Char) (inQ : Bool)
    (hq : c ≠ '"') (hc : ¬(c = ',' ∧ inQ = false)) :
    splitLineAux ('"' :: rest) cur inQ = splitLineAux rest cur (!inQ)
    ∧ splitLineAux (',' :: rest) cur false = ⟨jtrim cur⟩ :: splitLineAux rest [] false
    ∧ splitLineAux (c :: rest) cur inQ = splitLineAux rest (cur ++ [c]) inQ
    ∧ splitLine ("a,\"b,c\",d".data) = ["a", "b,c", "d"] := by
  refine ⟨?_, ?_, ?_, by decide⟩
  · simp [splitLineAux]
  · simp [splitLineAux]
  · simp only [splitLineAux]
    rw [if_neg hq, if_neg hc]

/-- C4 witness. -/
theorem claim_C4_splitLine_witness :
    splitLineAux ['x'] [] false = splitLineAux [] (([] : List Char) ++ ['x']) false :=
  (claim_C4_splitLine 'x' [] [] false (by decide) (by decide)).2.2.1

/-- C5: a cell whose (quote-cleaned, already trimmed) value is non-empty
and accepted by Number is stored as that number, any other cell is stored
as the string; concretely 42 parses to the number 42, 42abc stays the
string, and a missing cell is the empty string. -/
theorem claim_C5_cell_coercion :
    (∀ s n, jsStrToNum (cellVal s) = some n → cellVal s ≠ "" → coerceCell s = .num n)
    ∧ (∀ s, jsStrToNum (cellVal s) = none → coerceCell s = .str (cellVal s))
    ∧ (∀ s, cellVal s = "" → coerceCell s = .str (cellVal s))
    ∧ (parseCSV "h\n42").rows = [[("h", .num (.fin 42))]]
    ∧ (parseCSV "h\n42abc").rows = [[("h", .str "42abc")]]
    ∧ (parseCSV "h,g\nx").rows = [[("h", .str "x"), ("g", .str "")]] := by
  refine ⟨?_, ?_, ?_, by decide, by decide, by decide⟩
  · intro s n hsome hne
    simp [coerceCell, hsome, hne]
  · intro s hnone
    simp [coerceCell, hnone]
  · intro s he
    unfold coerceCell
    rw [he]
    decide

/-- C5 witness. -/
theorem claim_C5_cell_coercion_witness :
    coerceCell "7" = .num (.fin 7) ∧ coerceCell "xy" = .str (cellVal "xy") :=
  ⟨claim_C5_cell_coercion.1 "7" (.fin 7) (by decide) (by decide),
   claim_C5_cell_coercion.2.1 "xy" (by decide)⟩

/-- C8: every key of every parsed row is one of the table's headers; values
pair with headers positionally (with the empty string past the end of a
short line), and fields beyond the header count are discarded (the row
depends only on the first headers-many values). -/
theorem claim_C8_row_keys :
    (∀ text row kv, row ∈ (parseCSV text).rows → kv ∈ row → kv.1 ∈ (parseCSV text).headers)
    ∧ (∀ hs vs i (hi : i < hs.length), hs.Nodup →
        List.lookup (hs.get ⟨i, hi⟩) (buildRow hs vs) = some (coerceCell (vs.getD i "")))
    ∧ (∀ hs vs, buildRow hs vs = buildRow hs (vs.take hs.length)) := by
  refine ⟨?_, ?_, ?_⟩
  · intro text row kv hrow hkv
    unfold parseCSV at hrow ⊢
    cases hcsv : csvLines text with
    | nil =>
      rw [hcsv] at hrow
      simp at hrow
    | cons l0 rest =>
      rw [hcsv] at hrow
      simp only [List.mem_map] at hrow
      obtain ⟨line, -, rfl⟩ := hrow
      rcases buildRowAux_keys _ _ _ _ hkv with h2 | h2
      · simp at h2
      · exact h2
  · intro hs vs i hi hnd
    exact lookup_buildRowAux_get hs vs [] i hi hnd (by simp)
  · intro hs vs
    exact buildRowAux_take hs vs []

/-- C8 witness. -/
theorem claim_C8_row_keys_witness :
    ("h" : String) ∈ (parseCSV "h\n1").headers
    ∧ List.lookup ((["a", "b"] : List String).get ⟨1, by decide⟩) (buildRow ["a", "b"] ["x"])
        = some (coerceCell ((["x"] : List String).getD 1 "")) :=
  ⟨claim_C8_row_keys.1 "h\n1" [("h", .num (.fin 1))] ("h", .num (.fin 1)) (by decide) (by decide),
   claim_C8_row_keys.2.1 ["a", "b"] ["x"] 1 (by decide) (by decide)⟩

/-! First-match characterization of List.find?. -/

theorem find?_first_match {α : Type} (p : α → Bool) :
    ∀ (l : List α) (a : α), l.find? p = some a →
      ∃ pre post, l = pre ++ a :: post ∧ p a = true ∧ ∀ x ∈ pre, p x = false := by
  intro l
  induction l with
  | nil =>
    intro a h
    simp at h
  | cons x xs ih =>
    intro a h
    by_cases hx : p x = true
    · rw [List.find?_cons_of_pos _ hx] at h
      injection h with h
      subst h
      exact ⟨[], xs, rfl, hx, by simp⟩
    · rw [List.find?_cons_of_neg _ hx] at h
      obtain ⟨pre, post, heq, hpa, hpre⟩ := ih a h
      refine ⟨x :: pre, post, by rw [heq]; rfl, hpa, ?_⟩
      intro y hy
      rcases List.mem_cons.mp hy with rfl | hy2
      · exact Bool.not_eq_true _ |>.mp hx
      · exact hpre y hy2

/-- C6: findCol returns the first header, in header order, that some alias
matches under case-insensitive comparison with the header trimmed (aliases
are not trimmed); an empty header list gives the not-found sentinel; the
match is whole-string equality, as the characterization of colMatch states;
headers with stray whitespace and capitals resolve, and an untrimmed alias
does not. -/
theorem claim_C6_findCol (headers aliases : List String) (h : String)
    (hfound : findCol headers aliases = some h) :
    (∃ pre post, headers = pre ++ h :: post ∧ colMatch aliases h = true
      ∧ ∀ h0 ∈ pre, colMatch aliases h0 = false)
    ∧ (∀ al : List String, findCol [] al = none)
    ∧ (∀ (al : List String) (hd : String),
        colMatch al hd = true ↔ ∃ a ∈ al, jlower a.data = jlower (jtrim hd.data))
    ∧ findCol ["Build Version "] ["build version"] = some "Build Version "
    ∧ findCol ["x"] ["x "] = none := by
  refine ⟨?_, ?_, ?_, by decide, by decide⟩
  · unfold findCol at hfound
    by_cases he : headers.isEmpty
    · rw [if_pos he] at hfound
      exact absurd hfound (by simp)
    · rw [if_neg he] at hfound
      exact find?_first_match _ headers h hfound
  · intro al
    rfl
  · intro al hd
    unfold colMatch
    rw [List.any_eq_true]
    constructor
    · rintro ⟨a, ha, hp⟩
      exact ⟨a, ha, by rw [of_decide_eq_true hp, jlower_jtrim]⟩
    · rintro ⟨a, ha, hp⟩
      refine ⟨a, ha, decide_eq_true ?_⟩
      rw [hp, jlower_jtrim]

/-- C6 witness. -/
theorem claim_C6_findCol_witness :
    ∃ pre post, (["Build Version "] : List String) = pre ++ "Build Version " :: post
      ∧ colMatch ["build version"] "Build Version " = true
      ∧ ∀ h0 ∈ pre, colMatch ["build version"] h0 = false :=
  (claim_C6_findCol ["Build Version "] ["build version"] "Build Version " (by decide)).1

/-- C7 counterexample: the claim says getVal returns the coerced number
whenever the header is not the sentinel and the record has a defined entry
that coerces; but the source guard also treats the empty-string header as
falsy, so a record with a defined numeric entry under the empty-string
header yields 0 instead of that number. -/
theorem claim_C7_counterexample :
    getVal [("", .num (.fin 5))] (some "") = .fin 0
    ∧ List.lookup "" [("", JSVal.num (.fin 5))] = some (.num (.fin 5))
    ∧ jsToNum (.num (.fin 5)) = some (.fin 5)
    ∧ JSNum.fin 5 ≠ .fin 0 :=
  ⟨by decide, by decide, by decide, by decide⟩

/-- C7 (amended): getVal is a total function; it returns 0 when the header
argument is the not-found sentinel or the empty string or the record has no
defined entry for it, returns 0 when the cell does not coerce to a number,
and otherwise returns the cell coerced to a number. -/
theorem claim_C7_getVal :
    (∀ row, getVal row none = .fin 0)
    ∧ (∀ row, getVal row (some "") = .fin 0)
    ∧ (∀ row h, h ≠ "" → List.lookup h row = none → getVal row (some h) = .fin 0)
    ∧ (∀ row h cell, h ≠ "" → List.lookup h row = some cell → jsToNum cell = none →
        getVal row (some h) = .fin 0)
    ∧ (∀ row h cell n, h ≠ "" → List.lookup h row = some cell → jsToNum cell = some n →
        getVal row (some h) = n) := by
  refine ⟨?_, ?_, ?_, ?_, ?_⟩
  · intro row
    rfl
  · intro row
    unfold getVal
    dsimp only
    rw [if_pos rfl]
  · intro row h hne hlk
    unfold getVal
    dsimp only
    rw [if_neg hne, hlk]
  · intro row h cell hne hlk hnum
    unfold getVal
    dsimp only
    rw [if_neg hne, hlk]
    dsimp only
    rw [hnum]
  · intro row h cell n hne hlk hnum
    unfold getVal
    dsimp only
    rw [if_neg hne, hlk]
    dsimp only
    rw [hnum]
    dsimp only
    by_cases h0 : n = .fin 0
    · rw [if_pos h0, h0]
    · rw [if_neg h0]

/-- C7 witness. -/
theorem claim_C7_getVal_witness :
    getVal [("a", .str "5")] (some "a") = .fin 5 :=
  claim_C7_getVal.2.2.2.2 [("a", .str "5")] "a" (.str "5") (.fin 5)
    (by decide) (by decide) (by decide)
